import Mathlib

/-!
Verification of the Fortran-to-SDFG translator (dace/frontend/fortran/fortran_parser.py).

This file shallowly embeds the parts of `AST_translator` that the checked claims
are about: the arity sanity check of `subroutine2sdfg`, the pointer-assignment
duplicate scan, the allocate worklist processing, the view synthesis for sliced
call arguments, library-state wiring, variable re-declaration, the control-flow
lowering of if/for/break, and the AST-mutating call augmentation in `binop2sdfg`.

Python `for x in xs: ... xs.remove(x)` loops are embedded with CPython iterator
semantics: the iterator keeps a position counter into the list object; removing
an element shifts later elements left, so the element right after a removed one
is skipped.  Machine integers play no role here (all counts are small Python
ints), so `Nat`/`Int` are used directly.
-/

namespace FortranFrontend

/-- The error kinds raised by the translator (`raise ValueError` / `raise
NotImplementedError` / `raise NameError` sites in fortran_parser.py), plus the
Python `IndexError` that a bad list subscript would raise. -/
inductive TransError where
  | unknownVariable (name : String)
  | unknownType (name : String)
  | multipleUnallocated
  | arityMismatch
  | notImplemented (msg : String)
  | indexError
  deriving Repr, DecidableEq

/-- Symbolic integer expressions, standing in for the sympy expressions that
`sym.pystr_to_symbolic` produces for shapes, strides and offsets.  Literal
integers compare equal exactly as Python compares a sympy Integer to an int
(`shape == \x7b1\x7d` style checks in the source only fire on literal values). -/
inductive SymInt where
  | lit (n : Int)
  | var (s : String)
  | mul (a b : SymInt)
  deriving Repr, DecidableEq

/-- Embeds `dace.data._prod` as used for stride computation: the product of a
(prefix of a) size list, folding multiplication over the sequence with initial
value 1. -/
def symProd (xs : List SymInt) : SymInt :=
  xs.foldl SymInt.mul (SymInt.lit 1)

/-- Association-list lookup, embedding Python `dict.get` (returns None when the
key is absent). -/
def lookupA {α : Type} : List (String × α) → String → Option α
  | [], _ => none
  | p :: t, k => if p.1 = k then some p.2 else lookupA t k

/-- Association-list update, embedding Python `d[k] = v` with dict semantics:
an existing key is updated in place, a new key is appended at the end. -/
def setA {α : Type} : List (String × α) → String → α → List (String × α)
  | [], k, v => [(k, v)]
  | p :: t, k, v => if p.1 = k then (k, v) :: t else p :: setA t k v

/-- Updating a key and looking it up returns the new value. -/
theorem lookupA_setA_self {α : Type} (m : List (String × α)) (k : String) (v : α) :
    lookupA (setA m k v) k = some v := by
  induction m with
  | nil => simp [setA, lookupA]
  | cons p t ih =>
    by_cases hp : p.1 = k
    · simp [setA, lookupA, hp]
    · simp [setA, lookupA, hp, ih]

/-- Modelled from the spec: `SDFG._find_new_name` is not under src/ (it belongs
to the graph IR, an external collaborator).  The spec says container names are
graph-unique, collision-avoided at creation.  We return the base name when it
is unused and otherwise append the first free numeric suffix. -/
def find_new_name_aux (used : List String) (base : String) : Nat → Nat → String
  | 0, k => base ++ "_" ++ toString k
  | fuel + 1, k =>
    let cand := base ++ "_" ++ toString k
    if cand ∈ used then find_new_name_aux used base fuel (k + 1) else cand

/-- Modelled from the spec: entry point of the unique-name generator (see
`find_new_name_aux`). -/
def find_new_name (used : List String) (base : String) : String :=
  if base ∈ used then find_new_name_aux used base (used.length + 1) 0 else base

/-! ## Arity check (`subroutine2sdfg`, fortran_parser.py lines 452-460)

The sanity check raises `ValueError` unless the number of call arguments equals
the number of formal parameters, or exceeds it by exactly one while the result
type of the callee is not `Void`. -/

/-- Embeds the parameter-count sanity check of `AST_translator.subroutine2sdfg`:
`if not ((len(variables_in_call) == len(parameters)) or
(len(variables_in_call) == len(parameters) + 1 and not isinstance(node.result_type, Void))):
raise ValueError(...)`. -/
def subroutine_arity_check (variables_in_call parameters : Nat)
    (result_is_void : Bool) : Except TransError Unit :=
  if ¬ ((variables_in_call = parameters) ∨
        (variables_in_call = parameters + 1 ∧ result_is_void = false)) then
    .error .arityMismatch
  else
    .ok ()

/-! ## Handler return styles (`symbolarray2sdfg` lines 417-421, `write2sdfg`
lines 298-300)

`symbolarray2sdfg` builds a `NotImplementedError` object and `return`s it (a
plain value, which the caller `translate` discards), whereas `write2sdfg`
`raise`s.  We embed a handler as returning the unchanged translator state plus
the Python value it returns, with `Except.error` reserved for `raise`. -/

/-- A Python value as returned by a handler: handlers normally return `None`;
`symbolarray2sdfg` returns a constructed `NotImplementedError` object. -/
inductive PyValue where
  | noneVal
  | notImplementedErrorValue (msg : String)
  deriving Repr, DecidableEq

/-- Embeds `AST_translator.symbolarray2sdfg`: the handler body is a single
`return NotImplementedError(...)` statement, so it raises nothing and leaves
the translator state (and therefore the SDFG) untouched. -/
def symbolarray2sdfg {σ : Type} (st : σ) : Except TransError (σ × PyValue) :=
  .ok (st, .notImplementedErrorValue
    "Symbol_Decl_Node not implemented. This should be done via a transformation that itemizes the constant array.")

/-- Embeds `AST_translator.write2sdfg`: the handler body is a single
`raise NotImplementedError(...)` statement. -/
def write2sdfg {σ : Type} (_st : σ) : Except TransError (σ × PyValue) :=
  .error (.notImplemented "Fortran write statements are not implemented yet")

/-! ## Unallocated-arrays worklist entries

`vardecl2sdfg` appends `[node.name, datatype, sdfg, transient]` for allocatable
declarations (fortran_parser.py lines 1069-1072).  SDFG objects are compared by
identity in the worklist (`sdfg == j[2]`), embedded as a numeric graph id. -/

/-- One entry of `self.unallocated_arrays`: name, datatype, owning SDFG
(by identity) and transient flag. -/
structure UnallocEntry where
  uname : String
  dtypeId : Nat
  sdfgId : Nat
  transient : Bool
  deriving Repr, DecidableEq

/-! ## Pointer assignment (`pointerassignment2sdfg`, lines 198-213)

The duplicate scan reads flag `found`, but the statement meant to set it
assigns to the fresh dead variable `fount`, so `found` stays `False` for the
whole loop and the `raise ValueError("Multiple unallocated arrays with the same
name")` branch is unreachable. -/

/-- Embeds the `for i in self.unallocated_arrays:` loop of
`pointerassignment2sdfg` with CPython iterator semantics (`c` is the iterator
position).  On a name match the code checks `if found: raise`, then executes
`fount = True` (which does not change `found`) and removes the first entry
equal to the matched one. -/
def pointerassignment_loop (pname : String) (arrays : List UnallocEntry)
    (c : Nat) (found : Bool) : Except TransError (List UnallocEntry) :=
  if h : c < arrays.length then
    if (arrays.get ⟨c, h⟩).uname = pname then
      if found then .error .multipleUnallocated
      else pointerassignment_loop pname (arrays.erase (arrays.get ⟨c, h⟩)) (c + 1) found
    else pointerassignment_loop pname arrays (c + 1) found
  else
    .ok arrays
termination_by arrays.length - c
decreasing_by
  · have hle : (arrays.erase (arrays.get ⟨c, h⟩)).length ≤ arrays.length :=
      (List.erase_sublist _ _).length_le
    omega
  · omega

/-- The translator state that `pointerassignment2sdfg` touches: the current
SDFG name mapping and the unallocated-arrays worklist. -/
structure PtrAsgState where
  name_mapping : List (String × String)
  unallocated_arrays : List UnallocEntry
  deriving Repr, DecidableEq

/-- Embeds `AST_translator.pointerassignment2sdfg` (lines 198-213): raise
`ValueError("Unknown variable ...")` when the target is unbound, run the
duplicate scan over the worklist, then alias the pointer name to the mapped
target name. -/
def pointerassignment2sdfg (target ptr : String) (st : PtrAsgState) :
    Except TransError PtrAsgState :=
  match lookupA st.name_mapping target with
  | none => .error (.unknownVariable target)
  | some tgt =>
    match pointerassignment_loop ptr st.unallocated_arrays 0 false with
    | .error e => .error e
    | .ok arrays2 =>
      .ok { name_mapping := setA st.name_mapping ptr tgt,
            unallocated_arrays := arrays2 }

/-! ## Allocate statements (`allocate2sdfg`, lines 262-296)

For each allocation item the handler scans the unallocated-arrays worklist;
every entry whose name and owning SDFG match is removed and the array is
materialized with the sizes supplied by the allocate statement.  The handler
body contains no `raise` statement at all: no ambiguity check is performed when
several worklist entries match.  The scan runs with CPython iterator semantics,
so removing a matched entry makes the iterator skip the entry that followed it. -/

/-- A data container descriptor: element type, shape, strides, per-dimension
offsets and the transient flag (scalars have an empty shape). -/
structure ArrayDesc where
  dtypeId : Nat
  shape : List SymInt
  strides : List SymInt
  offsets : List SymInt
  transient : Bool
  deriving Repr, DecidableEq

/-- The translator/SDFG state that `allocate2sdfg` touches: the current SDFG
name mapping and container set, the unallocated-arrays worklist and the global
list of created container names. -/
structure AllocState where
  name_mapping : List (String × String)
  unallocated_arrays : List UnallocEntry
  arrays : List (String × ArrayDesc)
  all_array_names : List String
  deriving Repr, DecidableEq

/-- Whether a worklist entry matches an allocate target: the source condition
`j[0] == i.name.name and sdfg == j[2]`. -/
def allocMatches (aname : String) (sdfgId : Nat) (j : UnallocEntry) : Prop :=
  j.uname = aname ∧ j.sdfgId = sdfgId

instance (aname : String) (sdfgId : Nat) (j : UnallocEntry) :
    Decidable (allocMatches aname sdfgId j) := by
  unfold allocMatches; infer_instance

/-- Materialization of one matched worklist entry (the body of the inner loop of
`allocate2sdfg`): remove the entry, compute offsets of -1 and row-major
prefix-product strides from the allocate sizes, bind the source name to a fresh
container name and add the array to the SDFG. -/
def allocate_materialize (aname : String) (sizes : List SymInt)
    (st : AllocState) (j : UnallocEntry) : AllocState :=
  let st1 : AllocState := { st with unallocated_arrays := st.unallocated_arrays.erase j }
  let offsets := sizes.map (fun _ => SymInt.lit (-1))
  let strides := (List.range sizes.length).map (fun i => symProd (sizes.take i))
  let newname := find_new_name (st1.arrays.map Prod.fst) aname
  { st1 with
    name_mapping := setA st1.name_mapping aname newname,
    all_array_names := st1.all_array_names ++ [newname],
    arrays := st1.arrays ++
      [(newname, { dtypeId := j.dtypeId, shape := sizes, strides := strides,
                   offsets := offsets, transient := j.transient })] }

/-- Embeds the `for j in self.unallocated_arrays:` loop of `allocate2sdfg` for
one allocation item, with CPython iterator semantics (`c` is the iterator
position into the mutating worklist). -/
def allocate_loop (aname : String) (sdfgId : Nat) (sizes : List SymInt)
    (st : AllocState) (c : Nat) : AllocState :=
  if h : c < st.unallocated_arrays.length then
    if allocMatches aname sdfgId (st.unallocated_arrays.get ⟨c, h⟩) then
      allocate_loop aname sdfgId sizes
        (allocate_materialize aname sizes st (st.unallocated_arrays.get ⟨c, h⟩)) (c + 1)
    else
      allocate_loop aname sdfgId sizes st (c + 1)
  else
    st
termination_by st.unallocated_arrays.length - c
decreasing_by
  · have hle : ((allocate_materialize aname sizes st
        (st.unallocated_arrays.get ⟨c, h⟩)).unallocated_arrays).length
        ≤ st.unallocated_arrays.length := by
      simp only [allocate_materialize]
      exact (List.erase_sublist _ _).length_le
    omega
  · omega

/-- Embeds `AST_translator.allocate2sdfg` (lines 262-296): iterate over the
allocation list of the statement and process each item against the worklist.
The result type is `Except` to reflect that translation could in principle
fail, but the handler contains no `raise` statement and always succeeds. -/
def allocate2sdfg (allocation_list : List (String × List SymInt)) (sdfgId : Nat)
    (st : AllocState) : Except TransError AllocState :=
  .ok (allocation_list.foldl
    (fun acc item => allocate_loop item.1 sdfgId item.2 acc 0) st)

/-! ## Library-state wiring (`subroutine2sdfg`, lines 649-656 and 762-769)

For every name in `self.libstates` the inliner declares a scalar in the nested
SDFG and then wires memlets to the invocation node.  Both the in/out connector
registration and the memlet creation are guarded by membership of the name in
the read/write name sets computed from the callee body (`FindInputs` /
`FindOutputs`): a library state that the callee body never reads or writes by
name gets no edge at all. -/

/-- Embeds the memlet loop `for i in self.libstates:` of `subroutine2sdfg`
(lines 762-769): per library state, an outgoing write memlet is added when the
name is in the callee write-name set, then an incoming read memlet when it is
in the callee read-name set.  An edge is recorded as (name, direction) with
`true` for the outgoing write edge and `false` for the incoming read edge. -/
def libstates_memlets : List String → List String → List String → List (String × Bool)
  | [], _, _ => []
  | i :: rest, read_names, write_names =>
    (if i ∈ write_names then [(i, true)] else []) ++
    (if i ∈ read_names then [(i, false)] else []) ++
    libstates_memlets rest read_names write_names

/-! ## Variable declarations (`vardecl2sdfg`, lines 1058-1113)

Allocatable declarations are deferred to the worklist; otherwise, if the source
name is already bound in the name mapping (or registered as an SDFG symbol) the
handler returns immediately without touching the graph. -/

/-- Modelled from the spec: the primitive-type table
`ast_utils.fortrantypes2dacetypes` is not under src/; the spec describes a
fixed primitive-type table.  The concrete entries stand for the Fortran
primitive types mapped to dace scalar types. -/
def fortrantypes2dacetypes : List (String × Nat) :=
  [("INTEGER", 0), ("REAL", 1), ("DOUBLE", 2), ("BOOL", 3), ("CHAR", 4)]

/-- Embeds `AST_translator.get_dace_type` for string type names: look the name
up in the primitive-type table and raise `ValueError("Unknown type ...")` when
absent (the derived-type `registered_types` fallback is not needed by the
checked claims and is elided). -/
def get_dace_type (t : String) : Except TransError Nat :=
  match lookupA fortrantypes2dacetypes t with
  | some d => .ok d
  | none => .error (.unknownType t)

/-- A variable declaration node: source name, type name, allocatable flag and
optional dimension sizes. -/
structure VarDeclNode where
  vname : String
  vtype : String
  alloc : Bool
  sizes : Option (List SymInt)
  deriving Repr, DecidableEq

/-- The translator/SDFG state that `vardecl2sdfg` touches. -/
structure VarDeclState where
  name_mapping : List (String × String)
  symbols : List String
  arrays : List (String × ArrayDesc)
  unallocated_arrays : List UnallocEntry
  all_array_names : List String
  containers : List String
  deriving Repr, DecidableEq

/-- Embeds `AST_translator.vardecl2sdfg` (lines 1058-1113): resolve the type;
defer allocatable declarations to the worklist; compute sizes, offsets of -1
and prefix-product strides; return unchanged if the name is already bound in
the name mapping or is an SDFG symbol; otherwise bind a fresh unique name and
add the scalar or array container, recording the name in the context. -/
def vardecl2sdfg (node : VarDeclNode) (sdfgId : Nat) (transient_mode : Bool)
    (st : VarDeclState) : Except TransError VarDeclState :=
  match get_dace_type node.vtype with
  | .error e => .error e
  | .ok datatype =>
    if node.alloc then
      .ok { st with unallocated_arrays :=
        st.unallocated_arrays ++ [⟨node.vname, datatype, sdfgId, transient_mode⟩] }
    else if (lookupA st.name_mapping node.vname).isSome then
      .ok st
    else if node.vname ∈ st.symbols then
      .ok st
    else
      let newname := find_new_name (st.arrays.map Prod.fst) node.vname
      let st1 := { st with name_mapping := setA st.name_mapping node.vname newname }
      let st2 : VarDeclState :=
        match node.sizes with
        | none =>
          { st1 with arrays := st1.arrays ++
              [(newname, { dtypeId := datatype, shape := [], strides := [],
                           offsets := [], transient := transient_mode })] }
        | some sizes =>
          let offsets := sizes.map (fun _ => SymInt.lit (-1))
          let strides := (List.range sizes.length).map (fun i => symProd (sizes.take i))
          { st1 with arrays := st1.arrays ++
              [(newname, { dtypeId := datatype, shape := sizes, strides := strides,
                           offsets := offsets, transient := transient_mode })] }
      .ok { st2 with
        all_array_names := st2.all_array_names ++ [newname],
        containers := if node.vname ∈ st2.containers then st2.containers
                      else st2.containers ++ [node.vname] }

/-! ## View synthesis for sliced call arguments (`subroutine2sdfg`, lines 515-603)

For an argument matched in the local SDFG, a subscripted reference is scanned
index by index: a ParDecl select-all axis keeps its shape entry (and leaves
strides and offsets alone), a concrete index pops the stride and offset entry
of that axis; a ParDecl whose type is not ALL raises.  If the resulting shape
is the empty list or the one-element list 1, the argument binds as a scalar;
otherwise a view container over the base array is created with the reduced
shape and strides and zero offsets, with a base-to-view memlet when the formal
is read and a view-to-base memlet when it is written, and the nested SDFG gets
an array with the reduced shape, strides and offsets.  A whole-array name
reference never creates a view. -/

/-- An index of a subscripted call argument: a ParDecl select-all marker, a
ParDecl of any other kind (which raises NotImplementedError), or a concrete
index expression. -/
inductive IndexSpec where
  | all
  | parDeclOther
  | index (e : SymInt)
  deriving Repr, DecidableEq

/-- A container call argument: a whole-array name reference (Name_Node) or a
subscripted reference (Array_Subscript_Node) with its index list. -/
inductive CallArg where
  | nameArg (n : String)
  | subscript (n : String) (indices : List IndexSpec)
  deriving Repr, DecidableEq

/-- The loop state of the index scan: accumulated shape, index list, the
strides/offsets lists being reduced in place, and the two counters `indices`
and `changed_indices` of the source. -/
structure IndexScan where
  shape : List SymInt
  index_list : List (Option SymInt)
  strides : List SymInt
  offsets : List SymInt
  indices : Nat
  changed_indices : Nat
  deriving Repr, DecidableEq

/-- Embeds the `for i in variable_in_call.indices:` loop of `subroutine2sdfg`
(lines 541-556): select-all appends the shape entry of the current axis and a
None placeholder; a concrete index appends its symbolic value and pops the
stride and offset entry at position `indices - changed_indices`; any other
ParDecl raises.  (The dead local `mysize` of the source is elided.) -/
def scan_indices (arrayShape : List SymInt) : List IndexSpec → IndexScan →
    Except TransError IndexScan
  | [], acc => .ok acc
  | .all :: rest, acc =>
    match arrayShape[acc.indices]? with
    | none => .error .indexError
    | some s =>
      scan_indices arrayShape rest
        { acc with
          shape := acc.shape ++ [s],
          index_list := acc.index_list ++ [none],
          indices := acc.indices + 1 }
  | .parDeclOther :: _, _ => .error (.notImplemented "Index in ParDecl should be ALL")
  | .index e :: rest, acc =>
    scan_indices arrayShape rest
      { acc with
        index_list := acc.index_list ++ [some e],
        strides := acc.strides.eraseIdx (acc.indices - acc.changed_indices),
        offsets := acc.offsets.eraseIdx (acc.indices - acc.changed_indices),
        indices := acc.indices + 1,
        changed_indices := acc.changed_indices + 1 }

/-- The direction edges created at the call site for a view. -/
structure ViewEdges where
  baseToView : Bool
  viewToBase : Bool
  deriving Repr, DecidableEq

/-- The binding produced for one matched container argument: a scalar in the
nested SDFG, an array bound directly to the base container, or an array backed
by a view container in the calling SDFG. -/
inductive ArgBinding where
  | scalar (localName : String)
  | arrayDirect (localName : String) (shape strides offsets : List SymInt)
  | arrayWithView (localName viewName : String)
      (viewShape viewStrides viewOffsets : List SymInt) (edges : ViewEdges)
      (shape strides offsets : List SymInt)
  deriving Repr, DecidableEq

/-- Embeds the per-argument container binding of `subroutine2sdfg`
(lines 515-603) for an argument whose container is matched in the local SDFG:
scan the indices, then bind as scalar when the reduced shape is the empty list
or the singleton 1, and otherwise create the view (for subscripted arguments)
plus the nested-SDFG array; a whole-array reference binds directly. -/
def process_matched_arg (localName : String) (read_names write_names : List String)
    (arrayName : String) (array : ArrayDesc) (arg : CallArg) (viewCounter : Nat) :
    Except TransError ArgBinding :=
  match arg with
  | .subscript _ idxs =>
    match scan_indices array.shape idxs
        { shape := [], index_list := [], strides := array.strides,
          offsets := array.offsets, indices := 0, changed_indices := 0 } with
    | .error e => .error e
    | .ok res =>
      if res.shape = [] ∨ res.shape = [SymInt.lit 1] then
        .ok (.scalar localName)
      else
        let viewname := arrayName ++ "_view_" ++ toString viewCounter
        let offsets_zero := res.offsets.map (fun _ => SymInt.lit 0)
        .ok (.arrayWithView localName viewname res.shape res.strides offsets_zero
          { baseToView := localName ∈ read_names,
            viewToBase := localName ∈ write_names }
          res.shape res.strides res.offsets)
  | .nameArg _ =>
    if array.shape = [] ∨ array.shape = [SymInt.lit 1] then
      .ok (.scalar localName)
    else
      .ok (.arrayDirect localName array.shape array.strides array.offsets)

/-- The entries of xs at the select-all positions of a full-rank index list
(the axes kept by the reduction). -/
def keepAllAxes {α : Type} : List IndexSpec → List α → List α
  | [], _ => []
  | _ :: _, [] => []
  | .all :: rest, x :: xs => x :: keepAllAxes rest xs
  | .index _ :: rest, _ :: xs => keepAllAxes rest xs
  | .parDeclOther :: rest, _ :: xs => keepAllAxes rest xs

/-- The placeholder recorded in the index list for one index. -/
def idxToOpt : IndexSpec → Option SymInt
  | .all => none
  | .parDeclOther => none
  | .index e => some e

/-- The number of concrete (non-select-all) indices. -/
def countConcrete (idxs : List IndexSpec) : Nat :=
  (idxs.filter (fun i => match i with | .index _ => true | _ => false)).length

/-! ## Control-flow lowering (`ifstmt2sdfg` lines 302-341, `forstmt2sdfg`
lines 343-386, `break2sdfg` lines 1115-1118)

The lowering threads per-graph registers: the current tail state
(`last_sdfg_states`), the loop registers (`last_loop_continues`,
`last_loop_breaks`) and the return register (`last_returns`).  The loop
registers are plain per-graph assignments: `forstmt2sdfg` overwrites
`last_loop_continues[sdfg]` before lowering the body and never restores the
previous value afterwards. -/

/-- A source expression, as handed to the condition writer. -/
inductive FExpr where
  | name (s : String)
  | intLit (n : Int)
  | binop (op : String) (a b : FExpr)
  deriving Repr, DecidableEq

/-- Modelled from the spec: `ast_utils.ProcessedWriter.write_code` is not under
src/; per the spec, conditions are lowered to the exact boolean text of the
source expression.  Embedded as a deterministic expression printer; the claims
only depend on the produced text being used verbatim. -/
def write_code : FExpr → String
  | .name s => s
  | .intLit n => toString n
  | .binop op a b => "(" ++ write_code a ++ " " ++ op ++ " " ++ write_code b ++ ")"

/-- An interstate edge: source and destination state, optional guard-condition
text and symbol assignments applied on traversal; a `none` condition is the
default always-true guard of `InterstateEdge()`. -/
structure TEdge where
  src : String
  dst : String
  cond : Option String
  assignments : List (String × String)
  deriving Repr, DecidableEq

/-- The control-flow layer of one SDFG: states and interstate edges, in
creation order. -/
structure CFG where
  states : List String
  edges : List TEdge
  deriving Repr, DecidableEq

/-- The per-graph translator registers used by control-flow lowering (all
keyed by the SDFG in the source; here there is one graph). -/
structure CFState where
  sdfg : CFG
  last_sdfg_state : Option String
  last_loop_continue : Option String
  last_loop_break : Option String
  last_return : Option String
  symbols : List String
  name_mapping : List (String × String)
  deriving Repr, DecidableEq

/-- Modelled from the spec: `SDFG.add_state` belongs to the graph IR (an
external collaborator); it appends a state under a collision-avoided label. -/
def add_state (g : CFG) (label : String) : CFG × String :=
  let name := find_new_name g.states label
  ({ g with states := g.states ++ [name] }, name)

/-- Modelled from the spec: `SDFG.add_edge` appends an interstate edge. -/
def add_edge (g : CFG) (src dst : String) (cond : Option String)
    (assignments : List (String × String)) : CFG :=
  { g with edges := g.edges ++ [⟨src, dst, cond, assignments⟩] }

/-- Modelled from the spec: `ast_utils.add_simple_state_to_sdfg` is not under
src/; per spec section 4.4 the lowering threads a current tail state: the new
state is connected from the current tail by an unconditional edge when a tail
exists, and becomes the tail. -/
def add_simple_state_to_sdfg (st : CFState) (label : String) : CFState × String :=
  let p := add_state st.sdfg label
  match st.last_sdfg_state with
  | some prev =>
    ({ st with
       sdfg := add_edge p.1 prev p.2 none [],
       last_sdfg_state := some p.2 }, p.2)
  | none =>
    ({ st with sdfg := p.1, last_sdfg_state := some p.2 }, p.2)

/-- A statement of the mini control-flow language: if/for/break and a
representative non-control statement (lowered through the tail-threading state
creation; its tasklet content is irrelevant to the control-flow claims). -/
inductive FStmt where
  | ifStmt (line col : Nat) (cond : FExpr) (body : List FStmt)
      (body_else : List FStmt)
  | forStmt (line col : Nat) (itVar : String) (init : FExpr) (cond : FExpr)
      (iter : Option FExpr) (body : List FStmt)
  | breakStmt
  | simpleStmt (line col : Nat)

mutual

/-- Embeds the statement dispatch of `AST_translator.translate` together with
the handlers `ifstmt2sdfg` (lines 302-341), `forstmt2sdfg` (lines 343-386),
`break2sdfg` (lines 1115-1118) and, for non-control statements, the
state-creation prefix of `binop2sdfg` (line 913).  Each step follows the
source statement order, including the order in which states and edges are
created. -/
def translate_stmt (st : CFState) : FStmt → Except TransError CFState
  | .simpleStmt line col =>
    .ok (add_simple_state_to_sdfg st
      ("_state_l" ++ toString line ++ "_c" ++ toString col)).1
  | .breakStmt =>
    match st.last_sdfg_state with
    | none => .error (.unknownVariable "last_sdfg_states")
    | some cur =>
      .ok { st with
        last_loop_break := some cur,
        sdfg := add_edge st.sdfg cur (st.last_loop_continue.getD "None") none [] }
  | .ifStmt line col cond body body_else =>
    let name := "If_l_" ++ toString line ++ "_c_" ++ toString col
    let p1 := add_simple_state_to_sdfg st ("Begin" ++ name)
    let begin_state := p1.2
    let p2 := add_state p1.1.sdfg ("Guard" ++ name)
    let guard := p2.2
    let g3 := add_edge p2.1 begin_state guard none []
    let condition := write_code cond
    let p4 := add_state g3 ("BodyIfStart" ++ name)
    let body_ifstart := p4.2
    let st2 : CFState := { p1.1 with sdfg := p4.1, last_sdfg_state := some body_ifstart }
    match translate_list st2 body with
    | .error e => .error e
    | .ok st3 =>
      let p5 := add_state st3.sdfg ("MergeState" ++ name)
      let final := p5.2
      let g6 := add_edge p5.1 guard body_ifstart (some condition) []
      let st4 : CFState :=
        if ¬ (st3.last_sdfg_state = st3.last_loop_break ∨
              st3.last_sdfg_state = st3.last_loop_continue ∨
              st3.last_sdfg_state = st3.last_return) then
          let p6 := add_simple_state_to_sdfg { st3 with sdfg := g6 } ("BodyIfEnd" ++ name)
          { p6.1 with sdfg := add_edge p6.1.sdfg p6.2 final none [] }
        else
          { st3 with sdfg := g6 }
      if body_else.length > 0 then
        let name_else := "Else_l_" ++ toString line ++ "_c_" ++ toString col
        let p7 := add_state st4.sdfg ("BodyElseStart" ++ name_else)
        let body_elsestart := p7.2
        let st5 : CFState := { st4 with sdfg := p7.1, last_sdfg_state := some body_elsestart }
        match translate_list st5 body_else with
        | .error e => .error e
        | .ok st6 =>
          let p8 := add_simple_state_to_sdfg st6 ("BodyElseEnd" ++ name_else)
          let body_elseend := p8.2
          let g9 := add_edge p8.1.sdfg guard body_elsestart
            (some ("not (" ++ condition ++ ")")) []
          let g10 := add_edge g9 body_elseend final none []
          .ok { p8.1 with sdfg := g10, last_sdfg_state := some final }
      else
        .ok { st4 with
          sdfg := add_edge st4.sdfg guard final (some ("not (" ++ condition ++ ")")) [],
          last_sdfg_state := some final }
  | .forStmt line col itVar initE condE iterE body =>
    let name := "FOR_l_" ++ toString line ++ "_c_" ++ toString col
    let p1 := add_simple_state_to_sdfg st ("Begin" ++ name)
    let begin_state := p1.2
    let p2 := add_state p1.1.sdfg ("Guard" ++ name)
    let guard := p2.2
    let p3 := add_state p2.1 ("Merge" ++ name)
    let final := p3.2
    let st2 : CFState := { p1.1 with sdfg := p3.1, last_sdfg_state := some final }
    match (if itVar ∈ st2.symbols then some itVar
           else lookupA st2.name_mapping itVar) with
    | none => .error (.unknownVariable itVar)
    | some iter_name =>
      let entry1 := [(iter_name, write_code initE)]
      let g4 := add_edge st2.sdfg begin_state guard none entry1
      let condition := write_code condE
      let increment := match iterE with
        | some e => write_code e
        | none => "i+0+1"
      let entry2 := [(iter_name, increment)]
      let p5 := add_state g4 ("BeginLoop" ++ name)
      let begin_loop := p5.2
      let p6 := add_state p5.1 ("EndLoop" ++ name)
      let end_loop := p6.2
      let st3 : CFState := { st2 with
        sdfg := p6.1,
        last_sdfg_state := some begin_loop,
        last_loop_continue := some final }
      match translate_list st3 body with
      | .error e => .error e
      | .ok st4 =>
        let g7 := add_edge st4.sdfg (st4.last_sdfg_state.getD "None") end_loop none []
        let g8 := add_edge g7 guard begin_loop (some condition) []
        let g9 := add_edge g8 end_loop guard none entry2
        let g10 := add_edge g9 guard final (some ("not (" ++ condition ++ ")")) []
        .ok { st4 with sdfg := g10, last_sdfg_state := some final }

/-- Embeds the list dispatch of `translate` (`basicblock2sdfg`): statements of
a block are lowered in order. -/
def translate_list (st : CFState) : List FStmt → Except TransError CFState
  | [] => .ok st
  | s :: rest =>
    match translate_stmt st s with
    | .error e => .error e
    | .ok st1 => translate_list st1 rest

end

/-! ## AST mutation during call lowering (`binop2sdfg` lines 864-881,
`call2sdfg` lines 936-1046, `subroutine2sdfg` lines 452-460)

`binop2sdfg` detects a single embedded non-intrinsic call and mutates the
shared AST: `augmented_call.args.append(node.lval)` and
`augmented_call.hasret = True`, then dispatches.  A call resolved to a known
subroutine keeps the appended argument in the AST; an external call pops it
back in `call2sdfg` (`node.args.pop`) but leaves `hasret` set. -/

/-- A call expression node (Call_Expr_Node) with the fields the lowering
mutates: callee name, argument names and the `hasret` marker. -/
structure CallExpr where
  cname : String
  args : List String
  hasret : Bool
  deriving Repr, DecidableEq

/-- A statement of the mini program: an assignment whose right-hand side has
exactly one embedded call, or a statement with no embedded call. -/
inductive PStmt where
  | assignCall (lval : String) (call : CallExpr)
  | plain (id : Nat)
  deriving Repr, DecidableEq

/-- A known subroutine signature: name, formal parameters, void result flag. -/
structure Subr where
  sname : String
  params : List String
  result_is_void : Bool
  deriving Repr, DecidableEq

/-- The fixed intrinsic list of `binop2sdfg` (line 877): an embedded call to
one of these stays a tasklet and the AST is not mutated. -/
def intrinsic_names : List String :=
  ["sqrt", "exp", "pow", "max", "min", "abs", "tanh", "__dace_epsilon"]

/-- A lowered graph operation at the granularity the determinism claim
needs. -/
inductive GraphOp where
  | tasklet (id : Nat)
  | intrinsicTasklet (lval : String) (call : CallExpr)
  | callNode (cname : String) (args : List String)
  | externTasklet (cname : String) (args : List String)
  deriving Repr, DecidableEq

/-- Embeds the lowering of one statement by a fresh translator, with the AST
mutation of `binop2sdfg`: an assignment with one embedded non-intrinsic call
has the target appended to the call node's argument list and `hasret` set
(mutating the shared AST); a known-subroutine callee then passes the arity
check of `subroutine2sdfg`; an unknown callee takes the external path of
`call2sdfg`, which pops the appended return receiver again but leaves
`hasret` set.  Returns the graph operation and the statement as left in the
AST after lowering. -/
def lower_stmt (subrs : List Subr) : PStmt → Except TransError (GraphOp × PStmt)
  | .plain n => .ok (.tasklet n, .plain n)
  | .assignCall lv c =>
    if c.cname ∈ intrinsic_names then
      .ok (.intrinsicTasklet lv c, .assignCall lv c)
    else
      match subrs.find? (fun s => s.sname = c.cname) with
      | some sub =>
        if (c.args ++ [lv]).length = sub.params.length ∨
           ((c.args ++ [lv]).length = sub.params.length + 1 ∧
             sub.result_is_void = false) then
          .ok (.callNode c.cname (c.args ++ [lv]),
               .assignCall lv { c with args := c.args ++ [lv], hasret := true })
        else
          .error .arityMismatch
      | none =>
        .ok (.externTasklet c.cname (c.args ++ [lv]).dropLast,
             .assignCall lv
               { c with
                 args := (c.args ++ [lv]).dropLast,
                 hasret := true })

/-- Embeds one full lowering run on a program by a fresh translator: lower
each statement in order, collecting the graph operations and the possibly
mutated AST; a raise aborts the run. -/
def lower_program (subrs : List Subr) :
    List PStmt → Except TransError (List GraphOp × List PStmt)
  | [] => .ok ([], [])
  | s :: rest =>
    match lower_stmt subrs s with
    | .error e => .error e
    | .ok (op, s1) =>
      match lower_program subrs rest with
      | .error e => .error e
      | .ok (ops, rest1) => .ok (op :: ops, s1 :: rest1)

/-! ## Theorems -/

/-- Helper: the pointer-assignment duplicate scan never raises while its
`found` flag is false, and `found` is never set (the source assigns the dead
variable `fount` instead), so starting from `found = false` the loop always
returns normally. -/
theorem pointerassignment_loop_no_raise (pname : String) (arrays : List UnallocEntry)
    (c : Nat) (found : Bool) (hf : found = false) :
    ∃ l, pointerassignment_loop pname arrays c found = .ok l := by
  induction arrays, c, found using pointerassignment_loop.induct pname with
  | case1 arrays c h hname =>
    exact absurd hf (by simp)
  | case2 arrays c found h hname hfound ih =>
    rw [pointerassignment_loop]
    simp only [h, dif_pos, if_pos hname, if_neg hfound]
    exact ih hf
  | case3 arrays c found h hname ih =>
    rw [pointerassignment_loop]
    simp only [h, dif_pos, if_neg hname]
    exact ih hf
  | case4 arrays c found h =>
    rw [pointerassignment_loop]
    simp only [h, dif_neg]
    exact ⟨arrays, rfl⟩

/-- C4: lowering a procedure call passes the arity sanity check of
`subroutine2sdfg` exactly when the actual-argument count equals the
formal-parameter count, or exceeds it by one while the result type of the
callee is non-void; every other count raises the fatal arity-mismatch error. -/
theorem subroutine_arity_check_ok_iff (n p : Nat) (v : Bool) :
    subroutine_arity_check n p v = .ok () ↔ (n = p ∨ (n = p + 1 ∧ v = false)) := by
  unfold subroutine_arity_check
  split <;> simp_all
  tauto

/-- C9: for every pointer assignment whose target name is bound in the current
graph, lowering succeeds and in particular never raises the "Multiple
unallocated arrays with the same name" error, whatever the worklist contains:
the `found` flag read by the duplicate check is never set (the source sets a
dead variable `fount` instead), so the error branch is unreachable. -/
theorem pointerassignment2sdfg_duplicate_check_inert (target ptr : String)
    (st : PtrAsgState) (hbound : (lookupA st.name_mapping target).isSome) :
    (pointerassignment2sdfg target ptr st).isOk = true ∧
    pointerassignment2sdfg target ptr st ≠ .error .multipleUnallocated := by
  unfold pointerassignment2sdfg
  match hm : lookupA st.name_mapping target with
  | none => rw [hm] at hbound; simp at hbound
  | some tgt =>
    obtain ⟨l, hl⟩ := pointerassignment_loop_no_raise ptr st.unallocated_arrays 0 false rfl
    rw [hl]
    exact ⟨rfl, by simp⟩

/-- Witness for C9: a concrete state whose worklist holds two unallocated
entries with the pointer name; the lowering still succeeds. -/
theorem pointerassignment2sdfg_duplicate_check_inert_witness :
    (lookupA (α := String) [("t", "t_0")] "t").isSome = true ∧
    ((pointerassignment2sdfg "t" "p"
        { name_mapping := [("t", "t_0")],
          unallocated_arrays := [⟨"p", 0, 0, true⟩, ⟨"p", 0, 0, false⟩] }).isOk = true ∧
      pointerassignment2sdfg "t" "p"
        { name_mapping := [("t", "t_0")],
          unallocated_arrays := [⟨"p", 0, 0, true⟩, ⟨"p", 0, 0, false⟩] } ≠
        .error .multipleUnallocated) :=
  ⟨by decide,
   pointerassignment2sdfg_duplicate_check_inert "t" "p"
     { name_mapping := [("t", "t_0")],
       unallocated_arrays := [⟨"p", 0, 0, true⟩, ⟨"p", 0, 0, false⟩] }
     (by decide)⟩

/-- C10: lowering a symbol-array declaration does not abort translation: the
handler returns a constructed `NotImplementedError` value together with the
unchanged translator state, in contrast to the write-statement handler, which
raises and aborts. -/
theorem symbolarray2sdfg_returns_write2sdfg_raises {σ : Type} (st : σ) :
    (∃ msg, symbolarray2sdfg st = .ok (st, .notImplementedErrorValue msg)) ∧
    (∃ msg, write2sdfg st = (.error (.notImplemented msg) : Except TransError (σ × PyValue))) :=
  ⟨⟨_, rfl⟩, ⟨_, rfl⟩⟩

/-- Helper: once the iterator has passed all matching worklist entries, the
allocate scan leaves the state unchanged. -/
theorem allocate_loop_no_match (aname : String) (sdfgId : Nat) (sizes : List SymInt)
    (st : AllocState) (c : Nat)
    (hno : ∀ k (h : k < st.unallocated_arrays.length), c ≤ k →
      ¬ allocMatches aname sdfgId (st.unallocated_arrays.get ⟨k, h⟩)) :
    allocate_loop aname sdfgId sizes st c = st := by
  induction st, c using allocate_loop.induct aname sdfgId sizes with
  | case1 st c h hm ih =>
    exact absurd hm (hno c h (Nat.le_refl c))
  | case2 st c h hm ih =>
    rw [allocate_loop]
    simp only [h, dif_pos, if_neg hm]
    exact ih (fun k hk hck => hno k hk (Nat.le_of_succ_le hck))
  | case3 st c h =>
    rw [allocate_loop, dif_neg h]

/-- Helper: while the iterator walks the non-matching prefix of the worklist,
the state is unchanged; at the single matching entry it materializes and the
iterator moves on. -/
theorem allocate_loop_walk (aname : String) (sdfgId : Nat) (sizes : List SymInt)
    (st : AllocState) (pre post : List UnallocEntry) (e : UnallocEntry)
    (hsplit : st.unallocated_arrays = pre ++ e :: post)
    (hpre : ∀ x ∈ pre, ¬ allocMatches aname sdfgId x)
    (he : allocMatches aname sdfgId e) :
    ∀ c, c ≤ pre.length →
      allocate_loop aname sdfgId sizes st c =
        allocate_loop aname sdfgId sizes (allocate_materialize aname sizes st e)
          (pre.length + 1) := by
  suffices hkey : ∀ n c, c ≤ pre.length → pre.length - c = n →
      allocate_loop aname sdfgId sizes st c =
        allocate_loop aname sdfgId sizes (allocate_materialize aname sizes st e)
          (pre.length + 1) by
    intro c hc
    exact hkey (pre.length - c) c hc rfl
  intro n
  induction n with
  | zero =>
    intro c hc hn
    have hceq : c = pre.length := by omega
    rw [hceq]
    have hlen : pre.length < st.unallocated_arrays.length := by
      rw [hsplit]; simp
    have hget : st.unallocated_arrays.get ⟨pre.length, hlen⟩ = e := by
      rw [List.get_of_eq hsplit ⟨pre.length, hlen⟩]
      simp only [List.get_eq_getElem]
      rw [List.getElem_append_right (Nat.le_refl _)]
      simp
    rw [allocate_loop]
    simp only [hlen, dif_pos, hget, if_pos he]
  | succ n ih =>
    intro c hc hn
    have hclt : c < pre.length := by omega
    have hlen : c < st.unallocated_arrays.length := by
      rw [hsplit]; simp; omega
    have hget : st.unallocated_arrays.get ⟨c, hlen⟩ = pre.get ⟨c, hclt⟩ := by
      rw [List.get_of_eq hsplit ⟨c, hlen⟩]
      simp only [List.get_eq_getElem]
      exact List.getElem_append_left hclt
    have hnm : ¬ allocMatches aname sdfgId (st.unallocated_arrays.get ⟨c, hlen⟩) := by
      rw [hget]; exact hpre _ (List.get_mem pre c hclt)
    rw [allocate_loop]
    simp only [hlen, dif_pos, if_neg hnm]
    exact ih (c + 1) (by omega) (by omega)

/-- C2 (amended) theorem: when exactly one unallocated-arrays entry matches the
allocate target (same name, same owning graph), that entry is removed from the
worklist and the array is materialized with the sizes supplied by the allocate
statement, under a fresh graph-unique name bound to the source name; no error
is raised. -/
theorem allocate2sdfg_single_match (aname : String) (sdfgId : Nat)
    (sizes : List SymInt) (st : AllocState) (pre post : List UnallocEntry)
    (e : UnallocEntry)
    (hsplit : st.unallocated_arrays = pre ++ e :: post)
    (hpre : ∀ x ∈ pre, ¬ allocMatches aname sdfgId x)
    (hpost : ∀ x ∈ post, ¬ allocMatches aname sdfgId x)
    (he : allocMatches aname sdfgId e) :
    ∃ st2, allocate2sdfg [(aname, sizes)] sdfgId st = .ok st2 ∧
      st2.unallocated_arrays = pre ++ post ∧
      (∃ newname desc, st2.arrays = st.arrays ++ [(newname, desc)] ∧
        desc.shape = sizes ∧ desc.dtypeId = e.dtypeId ∧ desc.transient = e.transient ∧
        lookupA st2.name_mapping aname = some newname) := by
  have henotpre : e ∉ pre := fun hmem => hpre e hmem he
  have herase : st.unallocated_arrays.erase e = pre ++ post := by
    rw [hsplit, List.erase_append_right _ henotpre, List.erase_cons_head]
  have hmat_ua : (allocate_materialize aname sizes st e).unallocated_arrays
      = pre ++ post := by
    simp [allocate_materialize, herase]
  have hafter : allocate_loop aname sdfgId sizes
      (allocate_materialize aname sizes st e) (pre.length + 1)
      = allocate_materialize aname sizes st e := by
    apply allocate_loop_no_match
    intro k hk hck
    have hk2 : k < (pre ++ post).length := by rw [← hmat_ua]; exact hk
    have hkpre : pre.length ≤ k := by omega
    have hget : (allocate_materialize aname sizes st e).unallocated_arrays.get ⟨k, hk⟩
        = post.get ⟨k - pre.length, by simp at hk2; omega⟩ := by
      rw [List.get_of_eq hmat_ua ⟨k, hk⟩]
      simp only [List.get_eq_getElem]
      exact List.getElem_append_right hkpre
    rw [hget]
    exact hpost _ (List.get_mem _ _ _)
  refine ⟨allocate_materialize aname sizes st e, ?_, ?_, ?_⟩
  · show Except.ok (allocate_loop aname sdfgId sizes st 0) = _
    rw [allocate_loop_walk aname sdfgId sizes st pre post e hsplit hpre he 0
      (Nat.zero_le _), hafter]
  · exact hmat_ua
  · refine ⟨find_new_name (st.arrays.map Prod.fst) aname,
      { dtypeId := e.dtypeId, shape := sizes,
        strides := (List.range sizes.length).map (fun i => symProd (sizes.take i)),
        offsets := sizes.map (fun _ => SymInt.lit (-1)), transient := e.transient },
      ?_, rfl, rfl, rfl, ?_⟩
    · simp [allocate_materialize]
    · simp [allocate_materialize, lookupA_setA_self]

/-- Witness for C2 (amended): a concrete worklist with one matching entry
between two non-matching ones (wrong name, wrong graph); the entry is removed
and the array materialized with the allocate sizes. -/
theorem allocate2sdfg_single_match_witness :
    ∃ st2, allocate2sdfg [("a", [SymInt.lit 4])] 7
        { name_mapping := [],
          unallocated_arrays :=
            [⟨"b", 1, 7, true⟩, ⟨"a", 2, 7, false⟩, ⟨"a", 2, 3, true⟩],
          arrays := [], all_array_names := [] } = .ok st2 ∧
      st2.unallocated_arrays = [⟨"b", 1, 7, true⟩] ++ [⟨"a", 2, 3, true⟩] ∧
      (∃ newname desc,
        st2.arrays = ([] : List (String × ArrayDesc)) ++ [(newname, desc)] ∧
        desc.shape = [SymInt.lit 4] ∧
        desc.dtypeId = UnallocEntry.dtypeId ⟨"a", 2, 7, false⟩ ∧
        desc.transient = UnallocEntry.transient ⟨"a", 2, 7, false⟩ ∧
        lookupA st2.name_mapping "a" = some newname) :=
  allocate2sdfg_single_match "a" 7 [SymInt.lit 4]
    { name_mapping := [],
      unallocated_arrays :=
        [⟨"b", 1, 7, true⟩, ⟨"a", 2, 7, false⟩, ⟨"a", 2, 3, true⟩],
      arrays := [], all_array_names := [] }
    [⟨"b", 1, 7, true⟩] [⟨"a", 2, 3, true⟩] ⟨"a", 2, 7, false⟩
    rfl (by decide) (by decide) (by decide)

/-- C2 counterexample: an allocate whose target matches two worklist entries
raises no error at all — the first entry is materialized, the second stays on
the worklist untouched (the source handler has no `AmbiguousAllocation`
branch, and removing during iteration makes the scan skip the next entry). -/
theorem allocate2sdfg_duplicate_no_error :
    allocate2sdfg [("a", [SymInt.lit 3])] 0
        { name_mapping := [],
          unallocated_arrays := [⟨"a", 0, 0, true⟩, ⟨"a", 0, 0, false⟩],
          arrays := [], all_array_names := [] } =
      .ok { name_mapping := [("a", "a")],
            unallocated_arrays := [⟨"a", 0, 0, false⟩],
            arrays := [("a", { dtypeId := 0, shape := [SymInt.lit 3],
                               strides := [SymInt.lit 1],
                               offsets := [SymInt.lit (-1)], transient := true })],
            all_array_names := ["a"] } := by
  rw [allocate2sdfg]
  simp only [List.foldl]
  rw [allocate_loop]
  norm_num [allocMatches]
  rw [allocate_loop]
  norm_num [allocate_materialize, List.erase, find_new_name, setA, symProd]
  decide

/-- C5 (amended) theorem: for an inlined procedure call, a registered library
state receives the incoming (read) data-movement edge precisely when its name
is in the callee read-name set, and the outgoing (write) edge precisely when
its name is in the callee write-name set — the wiring is conditional, not
unconditional. -/
theorem libstates_memlets_char (libstates read_names write_names : List String)
    (s : String) :
    ((s, false) ∈ libstates_memlets libstates read_names write_names ↔
      s ∈ libstates ∧ s ∈ read_names) ∧
    ((s, true) ∈ libstates_memlets libstates read_names write_names ↔
      s ∈ libstates ∧ s ∈ write_names) := by
  induction libstates with
  | nil => simp [libstates_memlets]
  | cons i rest ih =>
    obtain ⟨ihr, ihw⟩ := ih
    constructor
    · simp only [libstates_memlets, List.mem_append, List.mem_cons, ihr]
      by_cases hiw : i ∈ write_names <;> by_cases hir : i ∈ read_names <;>
        by_cases hsi : s = i <;> simp_all
    · simp only [libstates_memlets, List.mem_append, List.mem_cons, ihw]
      by_cases hiw : i ∈ write_names <;> by_cases hir : i ∈ read_names <;>
        by_cases hsi : s = i <;> simp_all

/-- C5 counterexample: a registered library state that the callee body neither
reads nor writes by name gets no data-movement edge at all — contradicting the
claim that both directions are always wired. -/
theorem libstates_memlets_not_always_both :
    ("s", false) ∉ libstates_memlets ["s"] ["x"] ["y"] ∧
    ("s", true) ∉ libstates_memlets ["s"] ["x"] ["y"] := by
  decide

/-- C7: processing a declaration whose source name is already bound in the
graph name mapping, or already registered as an SDFG symbol, leaves the name
binding, the container set, the symbol table and the recorded context
containers unchanged and creates no container (binding is idempotent). -/
theorem vardecl2sdfg_rebind_noop (node : VarDeclNode) (sdfgId : Nat)
    (tm : Bool) (st : VarDeclState)
    (htype : (get_dace_type node.vtype).isOk = true)
    (hbound : (lookupA st.name_mapping node.vname).isSome = true ∨
      node.vname ∈ st.symbols) :
    ∃ st2, vardecl2sdfg node sdfgId tm st = .ok st2 ∧
      st2.name_mapping = st.name_mapping ∧
      st2.arrays = st.arrays ∧
      st2.containers = st.containers ∧
      st2.symbols = st.symbols := by
  match hdt : get_dace_type node.vtype with
  | .error e => rw [hdt] at htype; simp [Except.isOk, Except.toBool] at htype
  | .ok datatype =>
    by_cases halloc : node.alloc
    · refine ⟨{ st with unallocated_arrays := st.unallocated_arrays ++
          [⟨node.vname, datatype, sdfgId, tm⟩] }, ?_, rfl, rfl, rfl, rfl⟩
      unfold vardecl2sdfg
      rw [hdt]
      simp [halloc]
    · by_cases hmap : (lookupA st.name_mapping node.vname).isSome
      · refine ⟨st, ?_, rfl, rfl, rfl, rfl⟩
        unfold vardecl2sdfg
        rw [hdt]
        simp [halloc, hmap]
      · have hsym : node.vname ∈ st.symbols := by tauto
        refine ⟨st, ?_, rfl, rfl, rfl, rfl⟩
        unfold vardecl2sdfg
        rw [hdt]
        simp [halloc, hmap, hsym]

/-- Witness for C7: re-declaring the already-bound name d leaves the mapping,
containers and symbols untouched. -/
theorem vardecl2sdfg_rebind_noop_witness :
    ∃ st2, vardecl2sdfg ⟨"d", "INTEGER", false, none⟩ 0 true
        { name_mapping := [("d", "d")], symbols := [],
          arrays := [("d", { dtypeId := 0, shape := [], strides := [],
                             offsets := [], transient := true })],
          unallocated_arrays := [], all_array_names := ["d"],
          containers := ["d"] } = .ok st2 ∧
      st2.name_mapping = [("d", "d")] ∧
      st2.arrays = [("d", { dtypeId := 0, shape := [], strides := [],
                            offsets := [], transient := true })] ∧
      st2.containers = ["d"] ∧
      st2.symbols = [] :=
  vardecl2sdfg_rebind_noop ⟨"d", "INTEGER", false, none⟩ 0 true
    { name_mapping := [("d", "d")], symbols := [],
      arrays := [("d", { dtypeId := 0, shape := [], strides := [],
                         offsets := [], transient := true })],
      unallocated_arrays := [], all_array_names := ["d"],
      containers := ["d"] }
    (by decide) (Or.inl (by decide))

/-- Helper: removing the element at the length of the left part of an append
removes the head of the right part. -/
theorem eraseIdx_append_length {α : Type} (l₁ : List α) (x : α) (l₂ : List α) :
    (l₁ ++ x :: l₂).eraseIdx l₁.length = l₁ ++ l₂ := by
  induction l₁ with
  | nil => simp
  | cons a t ih => simp [List.eraseIdx, ih]

/-- Helper: full characterization of the index scan.  With the array shape
split into the already-scanned prefix and the remainder, and the strides and
offsets split into their already-reduced prefix and untouched remainder, the
scan keeps exactly the select-all axes of the remainder. -/
theorem scan_indices_spec (idxs : List IndexSpec) :
    ∀ (shapeDone shapeRem : List SymInt) (doneShape : List SymInt)
      (doneIdx : List (Option SymInt)) (doneStr remStr doneOff remOff : List SymInt)
      (c : Nat),
      idxs.length = shapeRem.length →
      remStr.length = idxs.length →
      remOff.length = idxs.length →
      (∀ i ∈ idxs, i ≠ IndexSpec.parDeclOther) →
      doneStr.length = shapeDone.length - c →
      doneOff.length = shapeDone.length - c →
      c ≤ shapeDone.length →
      scan_indices (shapeDone ++ shapeRem) idxs
        ⟨doneShape, doneIdx, doneStr ++ remStr, doneOff ++ remOff,
          shapeDone.length, c⟩ =
      .ok ⟨doneShape ++ keepAllAxes idxs shapeRem,
           doneIdx ++ idxs.map idxToOpt,
           doneStr ++ keepAllAxes idxs remStr,
           doneOff ++ keepAllAxes idxs remOff,
           shapeDone.length + idxs.length,
           c + countConcrete idxs⟩ := by
  induction idxs with
  | nil =>
    intro shapeDone shapeRem doneShape doneIdx doneStr remStr doneOff remOff c
      hlen hstr hoff hclean hdstr hdoff hc
    have h1 : shapeRem = [] := by
      cases shapeRem with
      | nil => rfl
      | cons a t => simp at hlen
    have h2 : remStr = [] := List.length_eq_zero.mp (by simp [hstr])
    have h3 : remOff = [] := List.length_eq_zero.mp (by simp [hoff])
    subst h1 h2 h3
    simp [scan_indices, keepAllAxes, countConcrete]
  | cons i rest ih =>
    intro shapeDone shapeRem doneShape doneIdx doneStr remStr doneOff remOff c
      hlen hstr hoff hclean hdstr hdoff hc
    match shapeRem, remStr, remOff with
    | [], _, _ => simp at hlen
    | _ :: _, [], _ => simp at hstr
    | _ :: _, _ :: _, [] => simp at hoff
    | s :: srem, rs :: rsrem, ro :: rorem =>
      have hclean_rest : ∀ j ∈ rest, j ≠ IndexSpec.parDeclOther := by
        intro j hj; exact hclean j (List.mem_cons_of_mem i hj)
      match i with
      | .parDeclOther =>
        exact absurd rfl (hclean .parDeclOther (List.mem_cons_self _ _))
      | .all =>
        rw [scan_indices]
        have hgetr : (shapeDone ++ s :: srem)[shapeDone.length]? = some s := by
          rw [List.getElem?_append_right (Nat.le_refl _)]
          simp
        simp only [hgetr]
        have hstep := ih (shapeDone ++ [s]) srem (doneShape ++ [s])
          (doneIdx ++ [none]) (doneStr ++ [rs]) rsrem (doneOff ++ [ro]) rorem c
          (by simpa using hlen) (by simpa using hstr) (by simpa using hoff)
          hclean_rest (by simp; omega) (by simp; omega) (by simp; omega)
        simp only [List.append_assoc, List.singleton_append, List.length_append,
          List.length_singleton] at hstep
        rw [show (⟨doneShape, doneIdx, doneStr ++ rs :: rsrem,
            doneOff ++ ro :: rorem, shapeDone.length, c⟩ : IndexScan).shape ++ [s]
            = doneShape ++ [s] from rfl]
        rw [show (⟨doneShape, doneIdx, doneStr ++ rs :: rsrem,
            doneOff ++ ro :: rorem, shapeDone.length, c⟩ : IndexScan).index_list
            ++ [none] = doneIdx ++ [none] from rfl]
        rw [show (⟨doneShape, doneIdx, doneStr ++ rs :: rsrem,
            doneOff ++ ro :: rorem, shapeDone.length, c⟩ : IndexScan).indices + 1
            = shapeDone.length + 1 from rfl]
        refine Eq.trans ?_ (Eq.trans hstep ?_)
        · congr 1
        · simp [keepAllAxes, idxToOpt, countConcrete]
          omega
      | .index e =>
        rw [scan_indices]
        have hstep := ih (shapeDone ++ [s]) srem doneShape
          (doneIdx ++ [some e]) doneStr rsrem doneOff rorem (c + 1)
          (by simpa using hlen) (by simpa using hstr) (by simpa using hoff)
          hclean_rest (by simp; omega) (by simp; omega) (by simp; omega)
        simp only [List.append_assoc, List.singleton_append, List.length_append,
          List.length_singleton] at hstep
        have herase1 : (doneStr ++ rs :: rsrem).eraseIdx (shapeDone.length - c)
            = doneStr ++ rsrem := by
          rw [show shapeDone.length - c = doneStr.length from hdstr.symm]
          exact eraseIdx_append_length doneStr rs rsrem
        have herase2 : (doneOff ++ ro :: rorem).eraseIdx (shapeDone.length - c)
            = doneOff ++ rorem := by
          rw [show shapeDone.length - c = doneOff.length from hdoff.symm]
          exact eraseIdx_append_length doneOff ro rorem
        simp only
        rw [herase1, herase2]
        refine Eq.trans ?_ (Eq.trans hstep ?_)
        · congr 1
        · simp [keepAllAxes, idxToOpt, countConcrete]
          omega

/-- C3 (amended): for a sliced argument with a full-rank index list mixing
select-all axes and concrete offsets, the stride and offset entries of each
concrete-indexed axis are dropped and the shape and stride of each select-all
axis kept; provided the reduced shape is not scalar-like (the empty list or
the one-element list 1), a view container is created with exactly the reduced
axis set, its base-to-view edge present iff the formal is read and its
view-to-base edge present iff the formal is written; a whole-array argument
never creates a view and binds directly to the base container. -/
theorem process_matched_arg_views (localName arrayName : String)
    (read_names write_names : List String) (array : ArrayDesc) (vc : Nat) :
    (∀ nm idxs,
      idxs.length = array.shape.length →
      array.strides.length = array.shape.length →
      array.offsets.length = array.shape.length →
      (∀ i ∈ idxs, i ≠ IndexSpec.parDeclOther) →
      ¬(keepAllAxes idxs array.shape = [] ∨
        keepAllAxes idxs array.shape = [SymInt.lit 1]) →
      process_matched_arg localName read_names write_names arrayName array
          (.subscript nm idxs) vc =
        .ok (.arrayWithView localName (arrayName ++ "_view_" ++ toString vc)
          (keepAllAxes idxs array.shape) (keepAllAxes idxs array.strides)
          ((keepAllAxes idxs array.offsets).map (fun _ => SymInt.lit 0))
          ⟨decide (localName ∈ read_names), decide (localName ∈ write_names)⟩
          (keepAllAxes idxs array.shape) (keepAllAxes idxs array.strides)
          (keepAllAxes idxs array.offsets))) ∧
    (∀ nm, ¬(array.shape = [] ∨ array.shape = [SymInt.lit 1]) →
      process_matched_arg localName read_names write_names arrayName array
          (.nameArg nm) vc =
        .ok (.arrayDirect localName array.shape array.strides array.offsets)) := by
  constructor
  · intro nm idxs hlen hstr hoff hclean hns
    have hscan := scan_indices_spec idxs [] array.shape [] [] [] array.strides
      [] array.offsets 0 (by simpa using hlen) (by omega) (by omega) hclean
      (by simp) (by simp) (by simp)
    simp only [List.nil_append, List.length_nil, Nat.zero_add] at hscan
    unfold process_matched_arg
    simp only [hscan, if_neg hns]
  · intro nm hns
    unfold process_matched_arg
    simp only [if_neg hns]

/-- Witness for C3 (amended): slicing axis 2 of a 2x5 array with a select-all
on axis 1 yields a view of shape 2 with the unit stride kept and the offset of
the concrete axis dropped, wired base-to-view for the read formal. -/
theorem process_matched_arg_views_witness :
    process_matched_arg "f" ["f"] [] "a"
        ⟨0, [SymInt.lit 2, SymInt.lit 5], [SymInt.lit 1, SymInt.lit 2],
         [SymInt.lit (-1), SymInt.lit (-1)], false⟩
        (.subscript "a" [IndexSpec.all, IndexSpec.index (SymInt.lit 3)]) 0 =
      .ok (.arrayWithView "f" ("a" ++ "_view_" ++ toString 0)
        [SymInt.lit 2] [SymInt.lit 1] [SymInt.lit 0]
        ⟨true, false⟩ [SymInt.lit 2] [SymInt.lit 1] [SymInt.lit (-1)]) :=
  (process_matched_arg_views "f" "a" ["f"] []
      ⟨0, [SymInt.lit 2, SymInt.lit 5], [SymInt.lit 1, SymInt.lit 2],
       [SymInt.lit (-1), SymInt.lit (-1)], false⟩ 0).1
    "a" [IndexSpec.all, IndexSpec.index (SymInt.lit 3)]
    (by decide) (by decide) (by decide) (by decide) (by decide)

/-- C3 counterexample: a full-rank mixed index list over a 1x5 array (one
select-all axis of extent 1, one concrete offset) produces the scalar-like
reduced shape 1, so the argument binds as a scalar and no view container is
created, contradicting the claim that every such argument gets a view whose
shape is the reduced axis set. -/
theorem process_matched_arg_unit_axis_no_view :
    process_matched_arg "f" ["f"] [] "a"
        ⟨0, [SymInt.lit 1, SymInt.lit 5], [SymInt.lit 1, SymInt.lit 1],
         [SymInt.lit (-1), SymInt.lit (-1)], false⟩
        (.subscript "a" [IndexSpec.all, IndexSpec.index (SymInt.lit 2)]) 0 =
      .ok (ArgBinding.scalar "f") := by
  rfl

/-- Helper: adding an edge preserves edge membership. -/
theorem mem_add_edge {g : CFG} {e : TEdge} (s d : String) (c : Option String)
    (a : List (String × String)) (he : e ∈ g.edges) :
    e ∈ (add_edge g s d c a).edges :=
  List.mem_append_left _ he

/-- Helper: adding a state does not change the edges. -/
theorem mem_add_state {g : CFG} {e : TEdge} (l : String) (he : e ∈ g.edges) :
    e ∈ (add_state g l).1.edges := he

/-- Helper: the tail-threading state creation only appends edges. -/
theorem mem_add_simple {st : CFState} {e : TEdge} (l : String)
    (he : e ∈ st.sdfg.edges) :
    e ∈ (add_simple_state_to_sdfg st l).1.sdfg.edges := by
  unfold add_simple_state_to_sdfg
  cases st.last_sdfg_state <;> simp [add_state, add_edge, he]

/-- Helper: the tail-threading state creation does not change the symbol
table. -/
theorem add_simple_symbols (st : CFState) (l : String) :
    (add_simple_state_to_sdfg st l).1.symbols = st.symbols := by
  unfold add_simple_state_to_sdfg
  cases st.last_sdfg_state <;> rfl

/-- Helper: the tail-threading state creation does not change the
loop-continue register. -/
theorem add_simple_continue (st : CFState) (l : String) :
    (add_simple_state_to_sdfg st l).1.last_loop_continue = st.last_loop_continue := by
  unfold add_simple_state_to_sdfg
  cases st.last_sdfg_state <;> rfl

mutual

/-- Helper: statement lowering only appends interstate edges; every edge
present before lowering a statement is present afterwards. -/
theorem translate_stmt_edge_mem (s : FStmt) (st st' : CFState)
    (h : translate_stmt st s = .ok st') :
    ∀ e : TEdge, e ∈ st.sdfg.edges → e ∈ st'.sdfg.edges := by
  match s with
  | .simpleStmt line col =>
    simp only [translate_stmt, Except.ok.injEq] at h
    subst h
    intro e he
    exact mem_add_simple _ he
  | .breakStmt =>
    rw [translate_stmt] at h
    cases hl : st.last_sdfg_state with
    | none => rw [hl] at h; simp at h
    | some cur =>
      rw [hl] at h
      simp only [Except.ok.injEq] at h
      subst h
      intro e he
      exact mem_add_edge _ _ _ _ he
  | .ifStmt line col cond body body_else =>
    rw [translate_stmt] at h
    try simp only [] at h
    intro e he
    split at h
    · exact absurd h (by simp)
    · rename_i st3 hb
      have he2 : e ∈ st3.sdfg.edges := by
        refine translate_list_edge_mem body _ _ hb e ?_
        apply mem_add_state
        apply mem_add_edge
        apply mem_add_state
        exact mem_add_simple _ he
      split at h
      · -- body_else present
        split at h
        · exact absurd h (by simp)
        · rename_i st6 hbe
          simp only [Except.ok.injEq] at h
          subst h
          apply mem_add_edge
          apply mem_add_edge
          apply mem_add_simple
          refine translate_list_edge_mem body_else _ _ hbe e ?_
          apply mem_add_state
          split
          · apply mem_add_edge
            apply mem_add_simple
            apply mem_add_edge
            apply mem_add_state
            exact he2
          · apply mem_add_edge
            apply mem_add_state
            exact he2
      · -- no else branch: the BodyIfEnd if is split next
        split at h
        · simp only [Except.ok.injEq] at h
          subst h
          apply mem_add_edge
          apply mem_add_edge
          apply mem_add_simple
          apply mem_add_edge
          apply mem_add_state
          exact he2
        · simp only [Except.ok.injEq] at h
          subst h
          apply mem_add_edge
          apply mem_add_edge
          apply mem_add_state
          exact he2
  | .forStmt line col itVar initE condE iterE body =>
    rw [translate_stmt.eq_def] at h
    simp only [] at h
    intro e he
    split at h
    · exact absurd h (by simp)
    · rename_i iter_name hiter
      split at h
      · exact absurd h (by simp)
      · rename_i st4 hb
        simp only [Except.ok.injEq] at h
        subst h
        apply mem_add_edge
        apply mem_add_edge
        apply mem_add_edge
        apply mem_add_edge
        refine translate_list_edge_mem body _ _ hb e ?_
        apply mem_add_state
        apply mem_add_state
        apply mem_add_edge
        apply mem_add_state
        apply mem_add_state
        exact mem_add_simple _ he

/-- Helper: block lowering only appends interstate edges. -/
theorem translate_list_edge_mem (l : List FStmt) (st st' : CFState)
    (h : translate_list st l = .ok st') :
    ∀ e : TEdge, e ∈ st.sdfg.edges → e ∈ st'.sdfg.edges := by
  match l with
  | [] =>
    simp only [translate_list, Except.ok.injEq] at h
    subst h
    exact fun e he => he
  | s :: rest =>
    rw [translate_list] at h
    split at h
    · exact absurd h (by simp)
    · rename_i st1 hs
      intro e he
      exact translate_list_edge_mem rest st1 st' h e
        (translate_stmt_edge_mem s st st1 hs e he)

end

/-- C6: for every if and for construct, the taken-branch edge out of the guard
state carries exactly the boolean text produced by lowering the source
condition once, and the not-taken edge out of the same guard state carries the
syntactic negation, that same text wrapped as "not (<cond>)". -/
theorem guard_negation_syntactic (st : CFState) :
    (∀ line col cond body body_else st2,
      translate_stmt st (.ifStmt line col cond body body_else) = .ok st2 →
      ∃ guard target ntarget,
        (⟨guard, target, some (write_code cond), []⟩ : TEdge) ∈ st2.sdfg.edges ∧
        (⟨guard, ntarget, some ("not (" ++ write_code cond ++ ")"), []⟩ : TEdge)
          ∈ st2.sdfg.edges) ∧
    (∀ line col itVar initE condE iterE body st2,
      translate_stmt st (.forStmt line col itVar initE condE iterE body) = .ok st2 →
      ∃ guard target ntarget,
        (⟨guard, target, some (write_code condE), []⟩ : TEdge) ∈ st2.sdfg.edges ∧
        (⟨guard, ntarget, some ("not (" ++ write_code condE ++ ")"), []⟩ : TEdge)
          ∈ st2.sdfg.edges) := by
  constructor
  · intro line col cond body body_else st2 h
    rw [translate_stmt] at h
    try simp only [] at h
    split at h
    · exact absurd h (by simp)
    · rename_i st3 hb
      split at h
      · -- body_else present
        split at h
        · exact absurd h (by simp)
        · rename_i st6 hbe
          simp only [Except.ok.injEq] at h
          subst h
          exact ⟨_, _, _, by
            apply mem_add_edge
            apply mem_add_edge
            apply mem_add_simple
            refine translate_list_edge_mem body_else _ _ hbe _ ?_
            apply mem_add_state
            split
            · apply mem_add_edge
              apply mem_add_simple
              exact List.mem_append_right _ (List.mem_singleton_self _)
            · exact List.mem_append_right _ (List.mem_singleton_self _), by
            apply mem_add_edge
            exact List.mem_append_right _ (List.mem_singleton_self _)⟩
      · -- no else branch
        split at h
        · simp only [Except.ok.injEq] at h
          subst h
          exact ⟨_, _, _, by
            apply mem_add_edge
            apply mem_add_edge
            apply mem_add_simple
            exact List.mem_append_right _ (List.mem_singleton_self _), by
            exact List.mem_append_right _ (List.mem_singleton_self _)⟩
        · simp only [Except.ok.injEq] at h
          subst h
          exact ⟨_, _, _, by
            apply mem_add_edge
            exact List.mem_append_right _ (List.mem_singleton_self _), by
            exact List.mem_append_right _ (List.mem_singleton_self _)⟩
  · intro line col itVar initE condE iterE body st2 h
    rw [translate_stmt.eq_def] at h
    simp only [] at h
    split at h
    · exact absurd h (by simp)
    · rename_i iter_name hiter
      split at h
      · exact absurd h (by simp)
      · rename_i st4 hb
        simp only [Except.ok.injEq] at h
        subst h
        exact ⟨_, _, _, by
          apply mem_add_edge
          apply mem_add_edge
          exact List.mem_append_right _ (List.mem_singleton_self _), by
          exact List.mem_append_right _ (List.mem_singleton_self _)⟩

/-- C1 (amended): the per-graph loop registers are overwritten, not pushed and
popped.  Part one: a break adds an edge from the current tail state to the
current loop-continue register target — the merge state of the most recently
lowered loop, which is the enclosing loop's merge only when no sibling inner
loop has been lowered since — and records the tail in the break register.
Part two: an if statement whose body ends in a break creates no
BodyIfEnd-to-merge edge, because the tail equals the break register (shown at
a representative state: exactly the five expected edges are created).  Part
three: after lowering a loop, the continue register is left pointing at that
loop's own merge state (the new tail); it is not restored to the value it had
before the loop. -/
theorem loop_registers_overwritten :
    (∀ st cur tgt, st.last_sdfg_state = some cur →
      st.last_loop_continue = some tgt →
      translate_stmt st .breakStmt = .ok { st with
        last_loop_break := some cur,
        sdfg := add_edge st.sdfg cur tgt none [] }) ∧
    (translate_stmt
        ⟨⟨["S"], []⟩, some "S", some "T", none, none, [], []⟩
        (.ifStmt 1 1 (.name "c") [.breakStmt] []) = .ok
      ⟨⟨["S", "BeginIf_l_1_c_1", "GuardIf_l_1_c_1", "BodyIfStartIf_l_1_c_1",
          "MergeStateIf_l_1_c_1"],
        [⟨"S", "BeginIf_l_1_c_1", none, []⟩,
         ⟨"BeginIf_l_1_c_1", "GuardIf_l_1_c_1", none, []⟩,
         ⟨"BodyIfStartIf_l_1_c_1", "T", none, []⟩,
         ⟨"GuardIf_l_1_c_1", "BodyIfStartIf_l_1_c_1", some "c", []⟩,
         ⟨"GuardIf_l_1_c_1", "MergeStateIf_l_1_c_1", some "not (c)", []⟩]⟩,
       some "MergeStateIf_l_1_c_1", some "T", some "BodyIfStartIf_l_1_c_1",
       none, [], []⟩) ∧
    (∀ st line col itVar initE condE iterE l2 c2 st2,
      itVar ∈ st.symbols →
      translate_stmt st
          (.forStmt line col itVar initE condE iterE [.simpleStmt l2 c2]) = .ok st2 →
      st2.last_loop_continue = st2.last_sdfg_state ∧
      ∃ m, st2.last_sdfg_state = some m) := by
  refine ⟨?_, ?_, ?_⟩
  · intro st cur tgt hcur htgt
    rw [translate_stmt, hcur]
    simp [htgt, add_edge]
  · rfl
  · intro st line col itVar initE condE iterE l2 c2 st2 hsym h
    rw [translate_stmt.eq_def] at h
    simp only [] at h
    split at h
    · rename_i hnone
      simp [add_simple_symbols, hsym] at hnone
    · rename_i iter_name hiter
      split at h
      · rename_i herr
        simp [translate_list, translate_stmt] at herr
      · rename_i st4 hb
        simp only [translate_list, translate_stmt, Except.ok.injEq] at hb
        simp only [Except.ok.injEq] at h
        subst h
        subst hb
        exact ⟨rfl, ⟨_, rfl⟩⟩

/-- Witness for C1 (amended): the break equation and the loop-register
behavior of the amended claim at concrete inputs. -/
theorem loop_registers_overwritten_witness :
    (translate_stmt ⟨⟨["A"], []⟩, some "A", some "M", none, none, [], []⟩
        FStmt.breakStmt =
      .ok ⟨⟨["A"], [⟨"A", "M", none, []⟩]⟩, some "A", some "M", some "A",
        none, [], []⟩) ∧
    (∃ st2, translate_stmt ⟨⟨[], []⟩, none, none, none, none, ["i"], []⟩
        (.forStmt 1 1 "i" (.intLit 1) (.binop "<" (.name "i") (.intLit 3))
          none [.simpleStmt 2 1]) = .ok st2 ∧
      st2.last_loop_continue = st2.last_sdfg_state ∧
      ∃ m, st2.last_sdfg_state = some m) := by
  constructor
  · exact loop_registers_overwritten.1
      ⟨⟨["A"], []⟩, some "A", some "M", none, none, [], []⟩ "A" "M" rfl rfl
  · refine ⟨_, rfl, ?_⟩
    exact loop_registers_overwritten.2.2
      ⟨⟨[], []⟩, none, none, none, none, ["i"], []⟩ 1 1 "i" (.intLit 1)
      (.binop "<" (.name "i") (.intLit 3)) none 2 1 _ (by decide) rfl

/-- C1 counterexample: in an outer loop whose body lowers an inner loop and
then a break, the break edge goes from the tail to the INNER loop's merge
state (the current loop-continue register value, never restored after the
inner loop), not to the enclosing outer loop's merge state; the continue
register still holds the inner merge after the outer body. -/
theorem break_edge_targets_inner_merge :
    ∃ st2, translate_stmt
        ⟨⟨[], []⟩, none, none, none, none, ["i", "j"], []⟩
        (.forStmt 1 1 "i" (.intLit 1) (.binop "<" (.name "i") (.intLit 5))
          (some (.binop "+" (.name "i") (.intLit 1)))
          [.forStmt 2 1 "j" (.intLit 1) (.binop "<" (.name "j") (.intLit 5))
            (some (.binop "+" (.name "j") (.intLit 1)))
            [.simpleStmt 3 1],
           .breakStmt]) = .ok st2 ∧
      (⟨"MergeFOR_l_2_c_1", "MergeFOR_l_2_c_1", none, []⟩ : TEdge) ∈ st2.sdfg.edges ∧
      (∀ e ∈ st2.sdfg.edges,
        ¬(e.src = "MergeFOR_l_2_c_1" ∧ e.dst = "MergeFOR_l_1_c_1")) := by
  refine ⟨_, rfl, by decide, by decide⟩

/-- Witness for C6: the guard edges of a concrete if statement and a concrete
for loop carry the lowered condition text and its syntactic "not (...)"
wrapping. -/
theorem guard_negation_syntactic_witness :
    (∃ st2 guard target ntarget,
      translate_stmt ⟨⟨[], []⟩, none, none, none, none, [], []⟩
          (.ifStmt 1 1 (.binop "<" (.name "x") (.intLit 3)) [.simpleStmt 2 1] [])
        = .ok st2 ∧
      (⟨guard, target, some (write_code (.binop "<" (.name "x") (.intLit 3))), []⟩ :
        TEdge) ∈ st2.sdfg.edges ∧
      (⟨guard, ntarget,
        some ("not (" ++ write_code (.binop "<" (.name "x") (.intLit 3)) ++ ")"),
        []⟩ : TEdge) ∈ st2.sdfg.edges) ∧
    (∃ st2 guard target ntarget,
      translate_stmt ⟨⟨[], []⟩, none, none, none, none, ["i"], []⟩
          (.forStmt 3 1 "i" (.intLit 1) (.binop "<" (.name "i") (.intLit 5)) none
            [.simpleStmt 4 1])
        = .ok st2 ∧
      (⟨guard, target, some (write_code (.binop "<" (.name "i") (.intLit 5))), []⟩ :
        TEdge) ∈ st2.sdfg.edges ∧
      (⟨guard, ntarget,
        some ("not (" ++ write_code (.binop "<" (.name "i") (.intLit 5)) ++ ")"),
        []⟩ : TEdge) ∈ st2.sdfg.edges) := by
  constructor
  · obtain ⟨g, t, n, h1, h2⟩ :=
      (guard_negation_syntactic ⟨⟨[], []⟩, none, none, none, none, [], []⟩).1
        1 1 (.binop "<" (.name "x") (.intLit 3)) [.simpleStmt 2 1] [] _ rfl
    exact ⟨_, g, t, n, rfl, h1, h2⟩
  · obtain ⟨g, t, n, h1, h2⟩ :=
      (guard_negation_syntactic ⟨⟨[], []⟩, none, none, none, none, ["i"], []⟩).2
        3 1 "i" (.intLit 1) (.binop "<" (.name "i") (.intLit 5)) none
        [.simpleStmt 4 1] _ rfl
    exact ⟨_, g, t, n, rfl, h1, h2⟩

/-- Helper: a statement whose embedded call (if any) is an intrinsic or an
unknown callee lowers to the same graph operation when lowered again from the
AST the first run left behind. -/
theorem lower_stmt_stable (subrs : List Subr) (s : PStmt)
    (hno : ∀ lv c, s = PStmt.assignCall lv c →
      c.cname ∈ intrinsic_names ∨ subrs.find? (fun x => x.sname = c.cname) = none)
    (op : GraphOp) (s1 : PStmt) (h : lower_stmt subrs s = .ok (op, s1)) :
    lower_stmt subrs s1 = .ok (op, s1) := by
  match s with
  | .plain n =>
    simp only [lower_stmt, Except.ok.injEq, Prod.mk.injEq] at h
    rw [← h.1, ← h.2]
    rfl
  | .assignCall lv c =>
    rcases hno lv c rfl with hint | hunk
    · rw [lower_stmt, if_pos hint] at h
      simp only [Except.ok.injEq, Prod.mk.injEq] at h
      rw [← h.1, ← h.2]
      rw [lower_stmt, if_pos hint]
    · by_cases hint : c.cname ∈ intrinsic_names
      · rw [lower_stmt, if_pos hint] at h
        simp only [Except.ok.injEq, Prod.mk.injEq] at h
        rw [← h.1, ← h.2]
        rw [lower_stmt, if_pos hint]
      · rw [lower_stmt, if_neg hint] at h
        rw [hunk] at h
        simp only [Except.ok.injEq, Prod.mk.injEq] at h
        have hdl : (c.args ++ [lv]).dropLast = c.args := by
          simp
        rw [← h.1, ← h.2]
        rw [lower_stmt]
        simp only [hdl]
        rw [if_neg hint, hunk]

/-- C8 (amended): lowering twice on the same shared normalized AST (each run
with a fresh translator) produces identical graphs provided no statement of
the program is an assignment with an embedded call to a known non-intrinsic
procedure; for such programs the first run leaves the AST in a state from
which a second run reproduces the same graph operation sequence.  (An
assignment calling a known procedure mutates the shared AST — the return
receiver is appended and hasret set — so a second run on the same AST
differs; see the counterexample.) -/
theorem lower_program_stable_without_procedure_call_assignments
    (subrs : List Subr) (prog : List PStmt)
    (hno : ∀ lv c, PStmt.assignCall lv c ∈ prog →
      c.cname ∈ intrinsic_names ∨
        subrs.find? (fun x => x.sname = c.cname) = none) :
    ∀ g p1, lower_program subrs prog = .ok (g, p1) →
      lower_program subrs p1 = .ok (g, p1) := by
  induction prog with
  | nil =>
    intro g p1 h
    simp only [lower_program, Except.ok.injEq, Prod.mk.injEq] at h
    rw [← h.1, ← h.2]
    rfl
  | cons s rest ih =>
    intro g p1 h
    rw [lower_program] at h
    split at h
    · exact absurd h (by simp)
    · rename_i op s1 hs
      split at h
      · exact absurd h (by simp)
      · rename_i ops rest1 hrest
        simp only [Except.ok.injEq, Prod.mk.injEq] at h
        rw [← h.1, ← h.2]
        rw [lower_program]
        rw [lower_stmt_stable subrs s
          (fun lv c hc => hno lv c (hc ▸ List.mem_cons_self s rest)) op s1 hs]
        rw [ih (fun lv c hc => hno lv c (List.mem_cons_of_mem s hc)) ops rest1 hrest]

/-- Witness for C8 (amended): a program with one external-call assignment and
one plain statement; the second run on the AST left by the first run yields
the same graph operations. -/
theorem lower_program_stable_witness :
    lower_program [⟨"s", ["x"], false⟩]
        [.assignCall "r" ⟨"ext", ["a"], true⟩, .plain 7] =
      .ok ([.externTasklet "ext" ["a"], .tasklet 7],
           [.assignCall "r" ⟨"ext", ["a"], true⟩, .plain 7]) :=
  lower_program_stable_without_procedure_call_assignments
    [⟨"s", ["x"], false⟩]
    [.assignCall "r" ⟨"ext", ["a"], false⟩, .plain 7]
    (by
      intro lv c hc
      simp only [List.mem_cons, List.not_mem_nil, or_false,
        PStmt.assignCall.injEq, reduceCtorEq] at hc
      rcases hc with ⟨h1, h2⟩
      subst h2
      right
      rfl)
    [.externTasklet "ext" ["a"], .tasklet 7]
    [.assignCall "r" ⟨"ext", ["a"], true⟩, .plain 7]
    rfl

/-- C8 counterexample: a program whose single statement assigns the result of
a call to a known non-void subroutine.  The first run succeeds but mutates
the shared AST (the return receiver r is appended to the call arguments and
hasret set); the second run, with a fresh translator on the same AST, fails
the arity check instead of producing an identical graph. -/
theorem lowering_twice_differs_on_shared_ast :
    lower_program [⟨"s", ["x"], false⟩] [.assignCall "r" ⟨"s", ["a"], false⟩] =
      .ok ([.callNode "s" ["a", "r"]], [.assignCall "r" ⟨"s", ["a", "r"], true⟩]) ∧
    lower_program [⟨"s", ["x"], false⟩] [.assignCall "r" ⟨"s", ["a", "r"], true⟩] =
      .error .arityMismatch := by
  constructor <;> rfl

end FortranFrontend
